import Mathlib

/-!
# Verification of the `ns-auth-sdk` relay event-exchange engine

Shallow embedding of the `RelayService` (src/services/relay.service.ts,
shipped concatenated into `src/components/profile/ProfilePage.tsx`) and of
the validators in `src/utils/validation.ts`, together with proofs of the
spec claims about them.

Platform builtins are modelled explicitly where they appear:
* `JSON.parse` is an oracle parameter `jp : String → Option Json`
  (`none` = the parse threw);
* `new URL(u)` restricted to the `ws:`/`wss:` check performed by
  `isValidRelayUrl` is modelled by a scheme-prefix/nonempty-host check;
* JavaScript truthiness of an optional string field is `truthyOpt`.
-/

namespace NsAuth

/-- Decidable equality for `Except`, so that concrete encoder outcomes can
be settled by `decide`. -/
instance {ε α : Type} [DecidableEq ε] [DecidableEq α] :
    DecidableEq (Except ε α)
  | .ok a, .ok b =>
    if h : a = b then .isTrue (by rw [h])
    else .isFalse (by intro he; cases he; exact h rfl)
  | .error a, .error b =>
    if h : a = b then .isTrue (by rw [h])
    else .isFalse (by intro he; cases he; exact h rfl)
  | .ok _, .error _ => .isFalse (by intro he; cases he)
  | .error _, .ok _ => .isFalse (by intro he; cases he)

/-! ## Validators (src/utils/validation.ts) -/

/-- `MAX_ROLE_LENGTH` from src/utils/validation.ts. -/
def MAX_ROLE_LENGTH : Nat := 100

/-- ASCII lower-casing of one character, as the WHATWG URL parser applies
to a URL scheme. -/
def lowerChar (c : Char) : Char :=
  if 'A' ≤ c && c ≤ 'Z' then Char.ofNat (c.toNat + 32) else c

/-- `String.trim` re-expressed over the character list (JS `trim`:
whitespace stripped from both ends). -/
def strTrim (s : String) : String :=
  ⟨((s.data.dropWhile Char.isWhitespace).reverse.dropWhile
      Char.isWhitespace).reverse⟩

/-- One character of the role pattern `[a-zA-Z0-9\s\-_]`. -/
def roleChar (c : Char) : Bool :=
  (('a' ≤ c && c ≤ 'z') || ('A' ≤ c && c ≤ 'Z') || ('0' ≤ c && c ≤ '9')
    || c.isWhitespace || c == '-' || c == '_')

/-- `isValidRoleTag`: after trimming, length in `[1, 100]` and every
character matches `[a-zA-Z0-9\s\-_]`. -/
def isValidRoleTag (role : String) : Bool :=
  let trimmed := strTrim role
  decide (0 < trimmed.length) && decide (trimmed.length ≤ MAX_ROLE_LENGTH)
    && trimmed.data.all roleChar

/-- One hex digit, as matched by `/^[0-9a-fA-F]+$/`. -/
def hexChar (c : Char) : Bool :=
  (('0' ≤ c && c ≤ '9') || ('a' ≤ c && c ≤ 'f') || ('A' ≤ c && c ≤ 'F'))

/-- `isValidPubkey`: exactly 64 characters, all hex digits. -/
def isValidPubkey (pubkey : String) : Bool :=
  pubkey.length == 64 && pubkey.data.all hexChar

/-- Host component of what follows `//` in a URL: the run of characters up
to the first path / port / query / fragment delimiter. -/
def urlHost (rest : List Char) : List Char :=
  rest.takeWhile (fun c => c != '/' && c != ':' && c != '?' && c != '#')

/-- `isValidRelayUrl`: models `new URL(url)` succeeding with
`protocol ∈ {ws:, wss:}` and a nonempty `hostname`.  The WHATWG parser
lower-cases the scheme, so the prefix match is case-insensitive; the
hostname is the authority component after `//` up to the first
delimiter. -/
def isValidRelayUrl (url : String) : Bool :=
  let lower := url.data.map lowerChar
  if "wss://".data.isPrefixOf lower then !(urlHost (url.data.drop 6)).isEmpty
  else if "ws://".data.isPrefixOf lower then !(urlHost (url.data.drop 5)).isEmpty
  else false

/-! ## Data model (src/types/nostr.ts, as consumed by the service) -/

/-- A follow-list entry: `{ pubkey, relay?, petname? }`.  `none` models an
absent / `undefined` field. -/
structure FollowEntry where
  pubkey : String
  relay : Option String := none
  petname : Option String := none
deriving Repr, DecidableEq

/-- JavaScript truthiness of an optional string: present and nonempty. -/
def truthyOpt : Option String → Bool
  | none => false
  | some s => !s.isEmpty

/-- `x || undefined` applied to an optional string: an empty string
collapses to `undefined`. -/
def orUndefined : Option String → Option String
  | none => none
  | some s => if s.isEmpty then none else some s

/-- A wire event: `{ kind, content, created_at, tags, pubkey }`.  `pubkey`
uses `""` for an absent author (the code only ever tests its truthiness). -/
structure NostrEvent where
  kind : Nat
  content : String
  created_at : Nat
  tags : List (List String)
  pubkey : String := ""
deriving Repr, DecidableEq

/-- A subscription packet as tested by `packet?.event`: `none` models a
packet that is null or carries no event. -/
abbrev Packet := Option NostrEvent

/-! ## Follow-list tag codec
(`publishFollowList` encode, `fetchFollowList` decode) -/

/-- The tag built for one valid entry in `publishFollowList`:
`['p', pubkey]`, then push `relay` if truthy, then push `petname` if
truthy. -/
def followTag (e : FollowEntry) : List String :=
  ["p", e.pubkey]
    ++ (if truthyOpt e.relay then [e.relay.getD ""] else [])
    ++ (if truthyOpt e.petname then [e.petname.getD ""] else [])

/-- The `followList.map` of `publishFollowList`, including its throwing
validation: the first entry with an invalid pubkey, or with a truthy relay
failing `isValidRelayUrl`, aborts the whole encode with an error. -/
def buildFollowTags : List FollowEntry → Except String (List (List String))
  | [] => .ok []
  | e :: rest =>
    if !isValidPubkey e.pubkey then
      .error "Invalid pubkey format for follow list entry."
    else if truthyOpt e.relay && !isValidRelayUrl (e.relay.getD "") then
      .error "Invalid relay URL format for follow list entry."
    else do
      let tags ← buildFollowTags rest
      return followTag e :: tags

/-- One tag's decode step in `fetchFollowList`: a tag contributes an entry
iff `tag[0] === 'p' && tag[1]`; the entry is
`{pubkey: tag[1], relay: tag[2] || undefined, petname: tag[3] || undefined}`. -/
def decodeFollowTag (tag : List String) : Option FollowEntry :=
  if tag.get? 0 == some "p" && truthyOpt (tag.get? 1) then
    some { pubkey := (tag.get? 1).getD ""
           relay := orUndefined (tag.get? 2)
           petname := orUndefined (tag.get? 3) }
  else
    none

/-- The follow-list decode loop of `fetchFollowList`: entries in tag order. -/
def decodeFollowTags (tags : List (List String)) : List FollowEntry :=
  tags.filterMap decodeFollowTag

/-! ## Profile codec (`parseProfileMetadata`) -/

/-- A JavaScript value as produced by `JSON.parse`. -/
inductive Json where
  | null
  | bool (b : Bool)
  | num (n : Int)
  | str (s : String)
  | arr (elems : List Json)
  | obj (fields : List (String × Json))

/-- JavaScript falsiness of a parsed JSON value (`!parsed`): `null`,
`false`, `0` and `""` are falsy; arrays and objects are always truthy. -/
def jsFalsy : Json → Bool
  | .null => true
  | .bool b => !b
  | .num n => n == 0
  | .str s => s.data.isEmpty
  | .arr _ => false
  | .obj _ => false

/-- `typeof parsed === 'object'`: true for `null`, arrays and objects. -/
def jsTypeofObject : Json → Bool
  | .null => true
  | .arr _ => true
  | .obj _ => true
  | _ => false

/-- JavaScript property access `parsed.key` on a parsed JSON value:
defined only on objects (a parsed array carries no string-keyed
properties; keys of a parsed object are unique). -/
def jsonField (j : Json) (key : String) : Option Json :=
  match j with
  | .obj fields => fields.lookup key
  | _ => none

/-- `typeof parsed.key === 'string' ? parsed.key : undefined`. -/
def stringField (j : Json) (key : String) : Option String :=
  match jsonField j key with
  | some (.str s) => some s
  | _ => none

/-- Decoded profile metadata: the five whitelisted optional string
fields. -/
structure ProfileMetadata where
  name : Option String := none
  display_name : Option String := none
  about : Option String := none
  picture : Option String := none
  website : Option String := none
deriving Repr, DecidableEq

/-- `maxProfileContentSize` from the service. -/
def maxProfileContentSize : Nat := 10000

/-- `parseProfileMetadata(content)`, with `JSON.parse` supplied as the
oracle `jp` (`none` models the parse throwing; the `catch` turns that into
`null`).  Mirrors the source: size ceiling, `!parsed || typeof parsed !==
'object'` guard, then one `typeof … === 'string'` copy per whitelisted
field. -/
def parseProfileMetadata (jp : String → Option Json) (content : String) :
    Option ProfileMetadata :=
  if content.length > maxProfileContentSize then none
  else
    match jp content with
    | none => none
    | some parsed =>
      if jsFalsy parsed || !jsTypeofObject parsed then none
      else
        some { name := stringField parsed "name"
               display_name := stringField parsed "display_name"
               about := stringField parsed "about"
               picture := stringField parsed "picture"
               website := stringField parsed "website" }

/-! ## Relay set state (`constructor`, `validateRelayUrls`, `setRelays`) -/

/-- `defaultRelays` from the service. -/
def defaultRelays : List String := ["wss://relay.damus.io"]

/-- `validateRelayUrls(urls)`: empty input is returned as-is; otherwise the
valid subset is compared against the input by length, the whole call
throwing if any URL is invalid. -/
def validateRelayUrls (urls : List String) : Except String (List String) :=
  if urls.isEmpty then .ok []
  else if (urls.filter isValidRelayUrl).length ≠ urls.length then
    .error "Invalid relay URL format"
  else .ok (urls.filter isValidRelayUrl)

/-- The constructor: `relayUrls = validateRelayUrls(config.relayUrls ??
defaultRelays)`; a thrown error means no instance is created. -/
def constructorRun (configRelayUrls : Option (List String)) :
    Except String (List String) :=
  validateRelayUrls (configRelayUrls.getD defaultRelays)

/-- `setRelays(urls)`: on a validation error the exception propagates
before the assignment, leaving the current set `relayUrls` unchanged. -/
def setRelaysRun (relayUrls : List String) (urls : List String) :
    Except String Unit × List String :=
  match validateRelayUrls urls with
  | .error msg => (.error msg, relayUrls)
  | .ok validUrls => (.ok (), validUrls)

/-- The relay sets a `RelayService` instance can hold: the constructor
establishes one, and `setRelays` is the only operation that reassigns
`this.relayUrls` (every other method only reads it), whether it succeeds
or throws. -/
inductive ReachableRelaySet : List String → Prop where
  | ctor (configRelayUrls : Option (List String)) (relayUrls : List String) :
      constructorRun configRelayUrls = .ok relayUrls →
      ReachableRelaySet relayUrls
  | set (relayUrls urls : List String) :
      ReachableRelaySet relayUrls →
      ReachableRelaySet (setRelaysRun relayUrls urls).2

/-! ## Subscription outcomes -/

/-- How a promise returned by a service operation settles. -/
inductive Settlement (α : Type) where
  | resolved (value : α)
  | rejected (msg : String)
deriving Repr, DecidableEq

/-- Whether a settlement is a rejection. -/
def Settlement.isRejected {α : Type} : Settlement α → Bool
  | .resolved _ => false
  | .rejected _ => true

/-- How the underlying subscription ends when no delivered item has
already settled the operation: natural completion, a source error, or the
operation's deadline timer firing with the source still open. -/
inductive SourceEnd where
  | complete
  | error (msg : String)
  | timeout
deriving Repr, DecidableEq

/-! ## Read operations -/

/-- The `next` handler loop of `fetchProfile`: the first kind-0 event
whose content decodes resolves the promise; an undecodable kind-0 event is
logged and scanning continues. -/
def fetchProfileScan (jp : String → Option Json) : List Packet →
    Option ProfileMetadata
  | [] => none
  | some ev :: rest =>
    if ev.kind == 0 then
      match parseProfileMetadata jp ev.content with
      | some metadata => some metadata
      | none => fetchProfileScan jp rest
    else fetchProfileScan jp rest
  | none :: rest => fetchProfileScan jp rest

/-- `fetchProfile(pubkey)` as a function of the delivered packets and the
way the subscription ends.  `initialized` is `this.eventStore !== null`;
`hasQuery` is `typeof eventStore.query === 'function'`. -/
def fetchProfileRun (jp : String → Option Json)
    (initialized hasQuery : Bool) (packets : List Packet)
    (ending : SourceEnd) : Settlement (Option ProfileMetadata) :=
  if !initialized then
    .rejected "RelayService not initialized. Call initialize() with an EventStore instance."
  else if !hasQuery then .resolved none
  else
    match fetchProfileScan jp packets with
    | some metadata => .resolved (some metadata)
    | none =>
      match ending with
      | .complete => .resolved none
      | .error _ => .resolved none
      | .timeout => .resolved none

/-- The role extraction loop of `fetchProfileRoleTag`: the first tag with
`tag[0] === 'role'` and a truthy `tag[1]` whose trimmed value passes
`isValidRoleTag` yields the role; otherwise scanning continues. -/
def roleFromTags : List (List String) → Option String
  | [] => none
  | tag :: rest =>
    if tag.get? 0 == some "role" && truthyOpt (tag.get? 1) then
      let candidate := strTrim ((tag.get? 1).getD "")
      if isValidRoleTag candidate then some candidate else roleFromTags rest
    else roleFromTags rest

/-- The `next` handler of `fetchProfileRoleTag`: the first kind-0 event
resolves the promise — with the extracted role, or with `null` when its
tags carry no valid role. -/
def roleTagScan : List Packet → Option (Option String)
  | [] => none
  | some ev :: rest =>
    if ev.kind == 0 then some (roleFromTags ev.tags) else roleTagScan rest
  | none :: rest => roleTagScan rest

/-- `fetchProfileRoleTag(pubkey)` as a function of the delivered packets
and the subscription ending. -/
def fetchProfileRoleTagRun (initialized hasQuery : Bool)
    (packets : List Packet) (ending : SourceEnd) :
    Settlement (Option String) :=
  if !initialized then
    .rejected "RelayService not initialized. Call initialize() with an EventStore instance."
  else if !hasQuery then .resolved none
  else
    match roleTagScan packets with
    | some role => .resolved role
    | none =>
      match ending with
      | .complete => .resolved none
      | .error _ => .resolved none
      | .timeout => .resolved none

/-- The `next` handler of `fetchFollowList`: the first kind-3 event
resolves the promise with the decoded `p`-tag entries. -/
def followListScan : List Packet → Option (List FollowEntry)
  | [] => none
  | some ev :: rest =>
    if ev.kind == 3 then some (decodeFollowTags ev.tags) else followListScan rest
  | none :: rest => followListScan rest

/-- `fetchFollowList(pubkey)` as a function of the delivered packets and
the subscription ending. -/
def fetchFollowListRun (initialized hasQuery : Bool)
    (packets : List Packet) (ending : SourceEnd) :
    Settlement (List FollowEntry) :=
  if !initialized then
    .rejected "RelayService not initialized. Call initialize() with an EventStore instance."
  else if !hasQuery then .resolved []
  else
    match followListScan packets with
    | some entries => .resolved entries
    | none =>
      match ending with
      | .complete => .resolved []
      | .error _ => .resolved []
      | .timeout => .resolved []

/-! ## Map-building read operations -/

/-- `Map.get` on an insertion-ordered map modelled as an association list
with unique keys. -/
def mapGet {α : Type} : List (String × α) → String → Option α
  | [], _ => none
  | (k1, v1) :: rest, k => if k1 = k then some v1 else mapGet rest k

/-- `Map.set` on an insertion-ordered map modelled as an association list
with unique keys: replace in place if the key is bound, else append. -/
def mapSet {α : Type} : List (String × α) → String → α → List (String × α)
  | [], k, v => [(k, v)]
  | (k1, v1) :: rest, k, v =>
    if k1 = k then (k, v) :: rest else (k1, v1) :: mapSet rest k v

/-- One `next` step of `fetchMultipleProfiles`: a kind-0 event with a
truthy `pubkey` whose content decodes overwrites the author's entry
unconditionally (no `created_at` comparison). -/
def multiProfilesStep (jp : String → Option Json)
    (profiles : List (String × ProfileMetadata)) (p : Packet) :
    List (String × ProfileMetadata) :=
  match p with
  | some ev =>
    if ev.kind == 0 && !ev.pubkey.data.isEmpty then
      match parseProfileMetadata jp ev.content with
      | some metadata => mapSet profiles ev.pubkey metadata
      | none => profiles
    else profiles
  | none => profiles

/-- The map accumulated by `fetchMultipleProfiles` over the delivered
packets. -/
def multiProfilesAccum (jp : String → Option Json)
    (packets : List Packet) : List (String × ProfileMetadata) :=
  packets.foldl (multiProfilesStep jp) []

/-- `fetchMultipleProfiles(pubkeys)`: empty input short-circuits to an
empty map before any query; otherwise the accumulated map is resolved on
completion, error and timeout alike. -/
def fetchMultipleProfilesRun (jp : String → Option Json)
    (initialized hasQuery : Bool) (pubkeys : List String)
    (packets : List Packet) (ending : SourceEnd) :
    Settlement (List (String × ProfileMetadata)) :=
  if !initialized then
    .rejected "RelayService not initialized. Call initialize() with an EventStore instance."
  else if pubkeys.isEmpty then .resolved []
  else if !hasQuery then .resolved []
  else
    match ending with
    | .complete => .resolved (multiProfilesAccum jp packets)
    | .error _ => .resolved (multiProfilesAccum jp packets)
    | .timeout => .resolved (multiProfilesAccum jp packets)

/-- One `next` step of `queryProfiles`: a kind-0 event with a truthy
`pubkey` whose content decodes is kept only if the author is unbound or
the event's `created_at` (`|| 0` is the identity on `Nat`) is strictly
greater than the stored timestamp. -/
def queryProfilesStep (jp : String → Option Json)
    (profiles : List (String × (ProfileMetadata × Nat))) (p : Packet) :
    List (String × (ProfileMetadata × Nat)) :=
  match p with
  | some ev =>
    if ev.kind == 0 && !ev.pubkey.data.isEmpty then
      match parseProfileMetadata jp ev.content with
      | some metadata =>
        match mapGet profiles ev.pubkey with
        | none => mapSet profiles ev.pubkey (metadata, ev.created_at)
        | some existing =>
          if ev.created_at > existing.2 then
            mapSet profiles ev.pubkey (metadata, ev.created_at)
          else profiles
      | none => profiles
    else profiles
  | none => profiles

/-- The timestamped map accumulated by `queryProfiles` over the delivered
packets. -/
def queryProfilesAccum (jp : String → Option Json)
    (packets : List Packet) : List (String × (ProfileMetadata × Nat)) :=
  packets.foldl (queryProfilesStep jp) []

/-- `queryProfiles(pubkeys, limit)`: on completion, error and timeout
alike, the accumulated map is resolved with the timestamps stripped.
`pubkeys` and `limit` only shape the network filter. -/
def queryProfilesRun (jp : String → Option Json)
    (initialized hasQuery : Bool) (pubkeys : List String) (limit : Nat)
    (packets : List Packet) (ending : SourceEnd) :
    Settlement (List (String × ProfileMetadata)) :=
  if !initialized then
    .rejected "RelayService not initialized. Call initialize() with an EventStore instance."
  else if !hasQuery then .resolved []
  else
    match ending with
    | .complete =>
      .resolved ((queryProfilesAccum jp packets).map fun p => (p.1, p.2.1))
    | .error _ =>
      .resolved ((queryProfilesAccum jp packets).map fun p => (p.1, p.2.1))
    | .timeout =>
      .resolved ((queryProfilesAccum jp packets).map fun p => (p.1, p.2.1))

/-! ## Publish operations -/

/-- One event on the publish acknowledgment stream, in delivery order:
a positive `{type: 'OK'}` response, any other response, or the stream
erroring. -/
inductive AckEvent where
  | ok (atMs : Nat)
  | other (atMs : Nat)
  | err (atMs : Nat) (msg : String)
deriving Repr, DecidableEq

/-- The race inside `publishEvent` between the acknowledgment stream and
`setTimeout(…, timeoutMs)`: the first `OK` before the deadline resolves
`true` at its time; a stream error before the deadline rejects at its
time; otherwise the timer resolves `false` at `timeoutMs`. -/
def publishSettle (ackEvents : List AckEvent) (timeoutMs : Nat) :
    Nat × Settlement Bool :=
  match ackEvents with
  | [] => (timeoutMs, .resolved false)
  | .ok t :: rest =>
    if t < timeoutMs then (t, .resolved true)
    else publishSettle rest timeoutMs
  | .other _ :: rest => publishSettle rest timeoutMs
  | .err t msg :: rest =>
    if t < timeoutMs then (t, .rejected msg)
    else publishSettle rest timeoutMs

/-- Outcome of one `publishEvent` call: the event handed to the underlying
`eventStore.publish` (if it was invoked at all), the settling delay in ms
measured from the start of the promise executor (the preceding rate-limit
wait does not depend on `timeoutMs`), and the settlement. -/
structure PublishRun where
  publishedEvent : Option NostrEvent
  settleDelay : Nat
  result : Settlement Bool
deriving Repr, DecidableEq

/-- `publishEvent(event, timeoutMs = 1000)`: the not-initialized guard
throws; inside the executor an empty relay set rejects before
`eventStore.publish` is reached, a missing `publish` method rejects next,
and only then is the publish call issued and raced against the timer. -/
def publishEventRun (event : NostrEvent) (initialized : Bool)
    (relayUrls : List String) (hasPublish : Bool)
    (ackEvents : List AckEvent) (timeoutMs : Nat := 1000) : PublishRun :=
  if !initialized then
    { publishedEvent := none, settleDelay := 0
      result := .rejected "RelayService not initialized. Call initialize() with an EventStore instance." }
  else if relayUrls.isEmpty then
    { publishedEvent := none, settleDelay := 0
      result := .rejected "No relays configured" }
  else if !hasPublish then
    { publishedEvent := none, settleDelay := 0
      result := .rejected "EventStore does not support publish method" }
  else
    let settled := publishSettle ackEvents timeoutMs
    { publishedEvent := some event, settleDelay := settled.1
      result := settled.2 }

/-- Outcome of one `publishFollowList` call: the unsigned event handed to
the injected `signFn` (if it was invoked), the signed event handed to the
underlying publish (if reached), and the settlement. -/
structure FollowPublishRun where
  signedEventArg : Option NostrEvent
  publishedEvent : Option NostrEvent
  result : Settlement Bool
deriving Repr, DecidableEq

/-- `publishFollowList(pubkey, followList, signEvent)`: the encode
(`buildFollowTags`) throws before `signEvent` on any invalid entry;
otherwise the kind-3 replacement event is signed and delegated to
`publishEvent` with its default deadline. -/
def publishFollowListRun (followList : List FollowEntry)
    (signFn : NostrEvent → NostrEvent) (now : Nat) (initialized : Bool)
    (relayUrls : List String) (hasPublish : Bool)
    (ackEvents : List AckEvent) : FollowPublishRun :=
  match buildFollowTags followList with
  | .error msg =>
    { signedEventArg := none, publishedEvent := none
      result := .rejected msg }
  | .ok tags =>
    let event : NostrEvent :=
      { kind := 3, content := "", created_at := now, tags := tags }
    let signed := signFn event
    let published :=
      publishEventRun signed initialized relayUrls hasPublish ackEvents
    { signedEventArg := some event
      publishedEvent := published.publishedEvent
      result := published.result }

/-! ## Deadline constants and the timed race -/

/-- `setTimeout` deadline of `fetchProfile` (ms). -/
def fetchProfileTimeoutMs : Nat := 5000

/-- `setTimeout` deadline of `fetchProfileRoleTag` (ms). -/
def fetchProfileRoleTagTimeoutMs : Nat := 5000

/-- `setTimeout` deadline of `fetchFollowList` (ms). -/
def fetchFollowListTimeoutMs : Nat := 10000

/-- `setTimeout` deadline of `fetchMultipleProfiles` (ms). -/
def fetchMultipleProfilesTimeoutMs : Nat := 1000

/-- `setTimeout` deadline of `queryProfiles` (ms). -/
def queryProfilesTimeoutMs : Nat := 10000

/-- Default `timeoutMs` of `publishEvent` (ms). -/
def publishEventDefaultTimeoutMs : Nat := 1000

/-- A packet delivered at a point in time (ms from subscription start). -/
structure TimedDelivery where
  time : Nat
  packet : Packet

/-- How the source itself ends, on the clock: completion, error, or never. -/
inductive TimedEnd where
  | completeAt (t : Nat)
  | errorAt (t : Nat) (msg : String)
  | never

/-- When a read operation settles: the first delivered packet satisfying
the operation's settling condition before the deadline settles it at its
delivery time; else the source's own ending settles it if it beats the
deadline timer; else the timer fires exactly at `deadline`. -/
def raceSettleTime (settles : Packet → Bool) (deadline : Nat) :
    List TimedDelivery → TimedEnd → Nat
  | [], .completeAt t => min t deadline
  | [], .errorAt t _ => min t deadline
  | [], .never => deadline
  | d :: rest, ending =>
    if settles d.packet && decide (d.time < deadline) then d.time
    else raceSettleTime settles deadline rest ending

/-- The settling condition of `fetchProfile`'s `next` handler: a kind-0
event whose content decodes. -/
def fetchProfileSettles (jp : String → Option Json) : Packet → Bool
  | some ev => ev.kind == 0 && (parseProfileMetadata jp ev.content).isSome
  | none => false

/-- The settling condition of `fetchProfileRoleTag`'s `next` handler: any
kind-0 event (it resolves with the role or with `null`). -/
def roleTagSettles : Packet → Bool
  | some ev => ev.kind == 0
  | none => false

/-- The settling condition of `fetchFollowList`'s `next` handler: any
kind-3 event. -/
def followListSettles : Packet → Bool
  | some ev => ev.kind == 3
  | none => false

/-- `fetchMultipleProfiles` and `queryProfiles` never settle on a
delivered item; only completion, error or the timer settles them. -/
def neverSettles : Packet → Bool := fun _ => false

/-! ## Derived notions used to state the claims -/

/-- An entry refused by `publishFollowList`'s validation gate: an invalid
pubkey, or a truthy relay failing `isValidRelayUrl`. -/
def badFollowEntry (e : FollowEntry) : Bool :=
  !isValidPubkey e.pubkey ||
    (truthyOpt e.relay && !isValidRelayUrl (e.relay.getD ""))

/-- Spec-side classification for the profile-codec guard: a parsed value
that *is* a JavaScript object in the sense of `typeof` minus `null` — a
JSON object or a JSON array. -/
def isJsObjectValue : Json → Bool
  | .arr _ => true
  | .obj _ => true
  | _ => false

/-- A packet that `fetchMultipleProfiles`/`queryProfiles` act on (and
retain in their maps): a kind-0 event with a truthy author whose content
decodes. -/
def profileContributes (jp : String → Option Json) : Packet → Bool
  | some ev =>
    ev.kind == 0 && !ev.pubkey.data.isEmpty &&
      (parseProfileMetadata jp ev.content).isSome
  | none => false

/-- The decodable kind-0 record carried by a packet for a given author
`a`: its metadata and `created_at`, when the packet is a kind-0 event
with truthy author `a` and decodable content. -/
def profileRecordOf (jp : String → Option Json) (a : String) :
    Packet → Option (ProfileMetadata × Nat)
  | some ev =>
    if ev.kind == 0 && !ev.pubkey.data.isEmpty && ev.pubkey == a then
      match parseProfileMetadata jp ev.content with
      | some metadata => some (metadata, ev.created_at)
      | none => none
    else none
  | none => none

/-- The latest-wins merge of a candidate record into the currently kept
one: keep the candidate iff its timestamp is strictly greater. -/
def latestMerge (cur : Option (ProfileMetadata × Nat))
    (cand : ProfileMetadata × Nat) : Option (ProfileMetadata × Nat) :=
  match cur with
  | none => some cand
  | some kept => if cand.2 > kept.2 then some cand else some kept

/-- The record `queryProfiles` keeps for author `a` after processing the
delivered packets in order, starting from the currently kept record. -/
def bestFrom (jp : String → Option Json) (a : String)
    (cur : Option (ProfileMetadata × Nat)) :
    List Packet → Option (ProfileMetadata × Nat)
  | [] => cur
  | p :: rest =>
    match profileRecordOf jp a p with
    | none => bestFrom jp a cur rest
    | some cand => bestFrom jp a (latestMerge cur cand) rest

/-! ## Basic lemmas -/

/-- A string accepted by `isValidRelayUrl` is nonempty (it carries at
least its scheme prefix). -/
theorem isValidRelayUrl_ne_empty {u : String} (h : isValidRelayUrl u = true) :
    u ≠ "" := by
  intro he
  subst he
  exact absurd h (by decide)

/-- A string accepted by `isValidPubkey` has length 64. -/
theorem isValidPubkey_length {u : String} (h : isValidPubkey u = true) :
    u.length = 64 := by
  simp [isValidPubkey] at h
  exact h.1

/-! ## Claims -/

/-- **C2.** For every read operation (`fetchProfile`, `fetchProfileRoleTag`,
`fetchFollowList`, `fetchMultipleProfiles`, `queryProfiles`) on an
initialized service, for every input and every behavior of the underlying
event source — packets delivered, missing `query` method, source error,
natural completion or deadline timeout — the returned promise never
rejects: every failure settles with `null` for the single-entity reads or
an empty list/map for the collection reads. -/
theorem reads_never_reject (jp : String → Option Json) (hasQuery : Bool)
    (pubkeys : List String) (limit : Nat) (packets : List Packet)
    (ending : SourceEnd) :
    (fetchProfileRun jp true hasQuery packets ending).isRejected = false ∧
    (fetchProfileRoleTagRun true hasQuery packets ending).isRejected = false ∧
    (fetchFollowListRun true hasQuery packets ending).isRejected = false ∧
    (fetchMultipleProfilesRun jp true hasQuery pubkeys packets
        ending).isRejected = false ∧
    (queryProfilesRun jp true hasQuery pubkeys limit packets
        ending).isRejected = false := by
  refine ⟨?_, ?_, ?_, ?_, ?_⟩
  · cases hasQuery <;> simp only [fetchProfileRun, Bool.not_true,
      Bool.not_false, if_true, if_false, Bool.false_eq_true] <;>
      first
        | rfl
        | (cases h : fetchProfileScan jp packets <;> cases ending <;>
            simp [Settlement.isRejected])
  · cases hasQuery <;> simp only [fetchProfileRoleTagRun, Bool.not_true,
      Bool.not_false, if_true, if_false, Bool.false_eq_true] <;>
      first
        | rfl
        | (cases h : roleTagScan packets <;> cases ending <;>
            simp [Settlement.isRejected])
  · cases hasQuery <;> simp only [fetchFollowListRun, Bool.not_true,
      Bool.not_false, if_true, if_false, Bool.false_eq_true] <;>
      first
        | rfl
        | (cases h : followListScan packets <;> cases ending <;>
            simp [Settlement.isRejected])
  · cases hasQuery <;> cases hp : pubkeys.isEmpty <;>
      simp [fetchMultipleProfilesRun, hp, Settlement.isRejected] <;>
      cases ending <;> simp [Settlement.isRejected]
  · cases hasQuery <;>
      simp [queryProfilesRun, Settlement.isRejected] <;>
      cases ending <;> simp [Settlement.isRejected]

/-- **C8.** For every event and every `timeoutMs`, with the configured
relay set empty, `publishEvent` rejects with an error at delay 0 —
without handing the event to the underlying publish call and without
waiting for the `timeoutMs` deadline (whatever the acknowledgment stream
would have done). -/
theorem publishEvent_no_relays_rejects_fast (event : NostrEvent)
    (initialized hasPublish : Bool) (ackEvents : List AckEvent)
    (timeoutMs : Nat) :
    (publishEventRun event initialized [] hasPublish ackEvents
        timeoutMs).publishedEvent = none ∧
    (publishEventRun event initialized [] hasPublish ackEvents
        timeoutMs).settleDelay = 0 ∧
    (publishEventRun event initialized [] hasPublish ackEvents
        timeoutMs).result.isRejected = true := by
  cases initialized <;>
    simp [publishEventRun, Settlement.isRejected, List.isEmpty]

/-- **C9 (counterexample).** The claim that the multi-entity batch read
uses a longer deadline than the single-entity reads is false: the
`fetchMultipleProfiles` deadline (1000 ms) is strictly shorter than the
`fetchProfile` deadline (5000 ms). -/
theorem deadline_constants_claim_false :
    ¬ fetchProfileTimeoutMs < fetchMultipleProfilesTimeoutMs := by
  decide

/-- **C9 (amended).** The fixed per-operation deadlines are: the
multi-entity batch read `fetchMultipleProfiles` uses a *shorter* deadline
(1 s) than the single-entity reads `fetchProfile` and
`fetchProfileRoleTag` (5 s each); `fetchFollowList` uses 10 s; and
`publishEvent` defaults to 1 s. -/
theorem deadline_constants_tuning :
    fetchMultipleProfilesTimeoutMs < fetchProfileTimeoutMs ∧
    fetchMultipleProfilesTimeoutMs < fetchProfileRoleTagTimeoutMs ∧
    fetchFollowListTimeoutMs = 10000 ∧
    publishEventDefaultTimeoutMs = 1000 := by
  decide

/-- A successful `validateRelayUrls` returns only URLs accepted by
`isValidRelayUrl` (the result is the valid-filtered input). -/
theorem validateRelayUrls_ok_mem {urls validUrls : List String}
    (h : validateRelayUrls urls = .ok validUrls) :
    ∀ u ∈ validUrls, isValidRelayUrl u = true := by
  unfold validateRelayUrls at h
  split at h
  · simp only [Except.ok.injEq] at h
    subst h
    intro u hu
    cases hu
  · split at h
    · cases h
    · simp only [Except.ok.injEq] at h
      subst h
      intro u hu
      exact (List.mem_filter.mp hu).2

/-- When every URL passes `isValidRelayUrl`, `validateRelayUrls` succeeds
and returns the input unchanged. -/
theorem validateRelayUrls_ok_of_all {urls : List String}
    (hall : ∀ u ∈ urls, isValidRelayUrl u = true) :
    validateRelayUrls urls = .ok urls := by
  unfold validateRelayUrls
  split
  · next he => rw [List.isEmpty_iff.mp he]
  · rw [List.filter_eq_self.mpr hall]
    simp

/-- When some URL fails `isValidRelayUrl`, `validateRelayUrls` throws. -/
theorem validateRelayUrls_error_of_bad {urls : List String}
    (hbad : ∃ u ∈ urls, isValidRelayUrl u = false) :
    validateRelayUrls urls = .error "Invalid relay URL format" := by
  obtain ⟨u, hu, hval⟩ := hbad
  unfold validateRelayUrls
  split
  · next he => rw [List.isEmpty_iff.mp he] at hu; cases hu
  · split
    · rfl
    · next hlen =>
      exfalso
      have hlen2 : (urls.filter isValidRelayUrl).length = urls.length := by
        omega
      rw [List.filter_length_eq_length.mp hlen2 u hu] at hval
      cases hval

/-- **C6.** For every current relay set and every input list `urls`: if
any URL in `urls` fails `isValidRelayUrl`, then `setRelays(urls)` throws
and the relay set afterwards is unchanged; if every URL passes, the relay
set becomes exactly `urls`.  Partial acceptance never occurs. -/
theorem setRelays_all_or_nothing (relayUrls urls : List String) :
    ((∃ u ∈ urls, isValidRelayUrl u = false) →
      (∃ msg, (setRelaysRun relayUrls urls).1 = .error msg) ∧
      (setRelaysRun relayUrls urls).2 = relayUrls) ∧
    ((∀ u ∈ urls, isValidRelayUrl u = true) →
      (setRelaysRun relayUrls urls).1 = .ok () ∧
      (setRelaysRun relayUrls urls).2 = urls) := by
  constructor
  · intro hbad
    have herr := validateRelayUrls_error_of_bad hbad
    simp [setRelaysRun, herr]
  · intro hall
    have hok := validateRelayUrls_ok_of_all hall
    simp [setRelaysRun, hok]

/-- Witness for **C6** at concrete inputs: `["http://x"]` is refused with
the state kept, `["wss://b"]` is accepted wholesale. -/
theorem setRelays_all_or_nothing_witness :
    (((∃ msg, (setRelaysRun ["wss://a"] ["http://x"]).1 = .error msg) ∧
        (setRelaysRun ["wss://a"] ["http://x"]).2 = ["wss://a"]) ∧
      ((setRelaysRun ["wss://a"] ["wss://b"]).1 = .ok () ∧
        (setRelaysRun ["wss://a"] ["wss://b"]).2 = ["wss://b"])) :=
  ⟨(setRelays_all_or_nothing ["wss://a"] ["http://x"]).1
      ⟨"http://x", by decide, by decide⟩,
    (setRelays_all_or_nothing ["wss://a"] ["wss://b"]).2 (by decide)⟩

/-- **C10.** At every reachable state of a `RelayService` instance,
every URL in the current relay set satisfies `isValidRelayUrl`: the
constructor establishes the invariant and `setRelays` — the only
operation reassigning the set — preserves it, throwing without mutating
on any invalid URL. -/
theorem relaySet_always_valid {relayUrls : List String}
    (h : ReachableRelaySet relayUrls) :
    ∀ u ∈ relayUrls, isValidRelayUrl u = true := by
  induction h with
  | ctor cfg R hc =>
    unfold constructorRun at hc
    exact validateRelayUrls_ok_mem hc
  | set R urls hR ih =>
    unfold setRelaysRun
    cases hv : validateRelayUrls urls with
    | error msg => simpa using ih
    | ok v =>
      simp only
      exact validateRelayUrls_ok_mem hv

/-- Witness for **C10**: the default-constructed instance is reachable
and its single relay URL is valid. -/
theorem relaySet_always_valid_witness :
    isValidRelayUrl "wss://relay.damus.io" = true :=
  relaySet_always_valid
    (ReachableRelaySet.ctor none ["wss://relay.damus.io"] (by decide))
    "wss://relay.damus.io" (by decide)

/-- The `followList.map` encode throws at the first entry its validation
gate refuses. -/
theorem buildFollowTags_error_of_bad {entries : List FollowEntry}
    (h : ∃ e ∈ entries, badFollowEntry e = true) :
    ∃ msg, buildFollowTags entries = .error msg := by
  induction entries with
  | nil => obtain ⟨e, he, _⟩ := h; cases he
  | cons e rest ih =>
    by_cases hbad : badFollowEntry e = true
    · unfold badFollowEntry at hbad
      cases hp : isValidPubkey e.pubkey with
      | false =>
        exact ⟨"Invalid pubkey format for follow list entry.",
          by simp [buildFollowTags, hp]⟩
      | true =>
        rw [hp] at hbad
        simp only [Bool.not_true, Bool.false_or, Bool.and_eq_true] at hbad
        exact ⟨"Invalid relay URL format for follow list entry.",
          by simp [buildFollowTags, hp, hbad.1, hbad.2]⟩
    · obtain ⟨e2, he2, hbad2⟩ := h
      rcases List.mem_cons.mp he2 with rfl | hrest
      · exact absurd hbad2 hbad
      · obtain ⟨msg, hmsg⟩ := ih ⟨e2, hrest, hbad2⟩
        unfold badFollowEntry at hbad
        simp only [Bool.or_eq_true, Bool.and_eq_true, Bool.not_eq_true',
          not_or, not_and] at hbad
        refine ⟨msg, ?_⟩
        simp only [buildFollowTags, hbad.1, Bool.not_true, Bool.false_eq_true,
          if_false]
        rcases htr : truthyOpt e.relay with _ | _
        · simp [htr, hmsg, Except.bind]
        · have hv := hbad.2 htr
          simp only [Bool.not_eq_true'] at hv
          simp [htr, hv, hmsg, Except.bind]

/-- **C1 (counterexample).** The claim fails on an entry whose relay is
*present but empty*: `""` is falsy, so the relay check is skipped, no
rejection happens, and both the signing collaborator and the underlying
publish call are reached — even though the entry has a present relay that
fails `isValidRelayUrl`. -/
theorem publishFollowList_gate_counterexample :
    (({ pubkey := ⟨List.replicate 64 'a'⟩, relay := some "" } :
        FollowEntry).relay = some "" ∧
      isValidRelayUrl "" = false) ∧
    (publishFollowListRun
        [{ pubkey := ⟨List.replicate 64 'a'⟩, relay := some "" }]
        id 0 true defaultRelays true []).signedEventArg ≠ none ∧
    (publishFollowListRun
        [{ pubkey := ⟨List.replicate 64 'a'⟩, relay := some "" }]
        id 0 true defaultRelays true []).publishedEvent ≠ none := by
  decide

/-- **C1 (amended).** If any entry's `pubkey` fails `isValidPubkey`, or
any entry has a present *nonempty* relay that fails `isValidRelayUrl`
(an empty-string relay is falsy and treated as absent), then
`publishFollowList` rejects with an error before `signFn` is invoked and
before any publish or network call is made. -/
theorem publishFollowList_validation_gate (followList : List FollowEntry)
    (signFn : NostrEvent → NostrEvent) (now : Nat) (initialized : Bool)
    (relayUrls : List String) (hasPublish : Bool)
    (ackEvents : List AckEvent)
    (h : ∃ e ∈ followList, isValidPubkey e.pubkey = false ∨
      (truthyOpt e.relay = true ∧
        isValidRelayUrl (e.relay.getD "") = false)) :
    (publishFollowListRun followList signFn now initialized relayUrls
        hasPublish ackEvents).signedEventArg = none ∧
    (publishFollowListRun followList signFn now initialized relayUrls
        hasPublish ackEvents).publishedEvent = none ∧
    ∃ msg, (publishFollowListRun followList signFn now initialized
        relayUrls hasPublish ackEvents).result = .rejected msg := by
  have hbad : ∃ e ∈ followList, badFollowEntry e = true := by
    obtain ⟨e, he, hcase⟩ := h
    refine ⟨e, he, ?_⟩
    unfold badFollowEntry
    rcases hcase with hpk | ⟨htr, hrel⟩
    · simp [hpk]
    · simp [htr, hrel]
  obtain ⟨msg, hmsg⟩ := buildFollowTags_error_of_bad hbad
  refine ⟨?_, ?_, msg, ?_⟩ <;> simp [publishFollowListRun, hmsg]

/-- Witness for **C1 (amended)**: a 63-character pubkey is rejected with
neither collaborator invoked. -/
theorem publishFollowList_validation_gate_witness :
    (publishFollowListRun [{ pubkey := ⟨List.replicate 63 'a'⟩ }]
        id 0 true defaultRelays true []).signedEventArg = none ∧
    (publishFollowListRun [{ pubkey := ⟨List.replicate 63 'a'⟩ }]
        id 0 true defaultRelays true []).publishedEvent = none ∧
    ∃ msg, (publishFollowListRun [{ pubkey := ⟨List.replicate 63 'a'⟩ }]
        id 0 true defaultRelays true []).result = .rejected msg :=
  publishFollowList_validation_gate
    [{ pubkey := ⟨List.replicate 63 'a'⟩ }] id 0 true defaultRelays true []
    ⟨{ pubkey := ⟨List.replicate 63 'a'⟩ }, by decide, Or.inl (by decide)⟩

/-- The codec's guard `!parsed || typeof parsed !== 'object'` refuses a
parsed value exactly when it is not a JavaScript object: `null` is falsy,
booleans/numbers/strings are not of `typeof` `'object'`, and objects and
arrays are truthy objects. -/
theorem codec_guard_eq (j : Json) :
    (jsFalsy j || !jsTypeofObject j) = !isJsObjectValue j := by
  cases j <;> simp [jsFalsy, jsTypeofObject, isJsObjectValue]

/-- **C5.** `parseProfileMetadata` is a total function (it never throws);
it returns `null` exactly on the failure paths — content longer than
10,000 characters, `JSON.parse` failure, or a parsed value that is not an
object — and otherwise returns a metadata value holding exactly those of
the five whitelisted fields (`name`, `display_name`, `about`, `picture`,
`website`) whose parsed values are strings, every other field being
dropped. -/
theorem parseProfileMetadata_spec (jp : String → Option Json)
    (content : String) :
    (parseProfileMetadata jp content = none ↔
      (content.length > maxProfileContentSize ∨ jp content = none ∨
        ∃ j, jp content = some j ∧ isJsObjectValue j = false)) ∧
    (∀ j m, jp content = some j →
      parseProfileMetadata jp content = some m →
      m.name = stringField j "name" ∧
      m.display_name = stringField j "display_name" ∧
      m.about = stringField j "about" ∧
      m.picture = stringField j "picture" ∧
      m.website = stringField j "website") := by
  by_cases hlen : content.length > maxProfileContentSize
  · have hpm : parseProfileMetadata jp content = none := by
      simp [parseProfileMetadata, hlen]
    refine ⟨⟨fun _ => Or.inl hlen, fun _ => hpm⟩, ?_⟩
    intro j m _ hm
    rw [hpm] at hm
    cases hm
  · cases hjp : jp content with
    | none =>
      have hpm : parseProfileMetadata jp content = none := by
        simp [parseProfileMetadata, hlen, hjp]
      refine ⟨⟨fun _ => Or.inr (Or.inl rfl), fun _ => hpm⟩, ?_⟩
      intro j m hj _
      cases hj
    | some j =>
      cases hguard : isJsObjectValue j with
      | false =>
        have hg : (jsFalsy j || !jsTypeofObject j) = true := by
          rw [codec_guard_eq, hguard]; rfl
        have hpm : parseProfileMetadata jp content = none := by
          simp [parseProfileMetadata, hlen, hjp, hg]
        refine ⟨⟨fun _ => Or.inr (Or.inr ⟨j, rfl, hguard⟩),
          fun _ => hpm⟩, ?_⟩
        intro j2 m hj2 hm
        rw [hpm] at hm
        cases hm
      | true =>
        have hg : (jsFalsy j || !jsTypeofObject j) = false := by
          rw [codec_guard_eq, hguard]; rfl
        have hpm : parseProfileMetadata jp content =
            some { name := stringField j "name"
                   display_name := stringField j "display_name"
                   about := stringField j "about"
                   picture := stringField j "picture"
                   website := stringField j "website" } := by
          simp [parseProfileMetadata, hlen, hjp, hg]
        constructor
        · rw [hpm]
          constructor
          · intro hc; cases hc
          · rintro (hc | hc | ⟨j2, hj2, hv2⟩)
            · exact absurd hc hlen
            · cases hc
            · injection hj2 with he
              subst he
              rw [hguard] at hv2
              cases hv2
        · intro j2 m hj2 hm
          injection hj2 with he
          subst he
          rw [hpm] at hm
          injection hm with hme
          subst hme
          exact ⟨rfl, rfl, rfl, rfl, rfl⟩

/-- Witness for **C5**: a parse failure yields `null`, and a decoded
object keeps exactly its whitelisted string fields. -/
theorem parseProfileMetadata_spec_witness :
    parseProfileMetadata (fun _ => none) "x" = none ∧
    (({ name := some "a" } : ProfileMetadata).name
        = stringField (Json.obj [("name", Json.str "a"),
            ("age", Json.num 3)]) "name" ∧
      ({ name := some "a" } : ProfileMetadata).display_name
        = stringField (Json.obj [("name", Json.str "a"),
            ("age", Json.num 3)]) "display_name" ∧
      ({ name := some "a" } : ProfileMetadata).about
        = stringField (Json.obj [("name", Json.str "a"),
            ("age", Json.num 3)]) "about" ∧
      ({ name := some "a" } : ProfileMetadata).picture
        = stringField (Json.obj [("name", Json.str "a"),
            ("age", Json.num 3)]) "picture" ∧
      ({ name := some "a" } : ProfileMetadata).website
        = stringField (Json.obj [("name", Json.str "a"),
            ("age", Json.num 3)]) "website") :=
  ⟨(parseProfileMetadata_spec (fun _ => none) "x").1.mpr
      (Or.inr (Or.inl rfl)),
    (parseProfileMetadata_spec
        (fun _ => some (Json.obj [("name", Json.str "a"),
          ("age", Json.num 3)])) "x").2
      (Json.obj [("name", Json.str "a"), ("age", Json.num 3)])
      { name := some "a" } rfl (by decide)⟩

/-- When no entry is refused by the validation gate, the encode succeeds
and produces one `p` tag per entry, in order. -/
theorem buildFollowTags_ok_of_good {entries : List FollowEntry}
    (h : ∀ e ∈ entries, badFollowEntry e = false) :
    buildFollowTags entries = .ok (entries.map followTag) := by
  induction entries with
  | nil => rfl
  | cons e rest ih =>
    have he := h e (List.mem_cons_self e rest)
    unfold badFollowEntry at he
    simp only [Bool.or_eq_false_iff, Bool.not_eq_false'] at he
    have hrest := ih fun x hx => h x (List.mem_cons_of_mem e hx)
    simp [buildFollowTags, he.1, he.2, hrest, Except.bind, Except.pure]

/-- Decoding the tag built for one gate-passing entry whose petname, when
present, is nonempty and accompanied by a truthy relay reproduces the
entry. -/
theorem decodeFollowTag_followTag {e : FollowEntry}
    (hp : isValidPubkey e.pubkey = true)
    (hr : e.relay ≠ none → isValidRelayUrl (e.relay.getD "") = true)
    (hpn : e.petname ≠ none →
      truthyOpt e.petname = true ∧ truthyOpt e.relay = true) :
    decodeFollowTag (followTag e) = some e := by
  obtain ⟨pk, relay, petname⟩ := e
  have hpkne : pk ≠ "" := by
    intro hh
    subst hh
    simp [isValidPubkey] at hp
  have hpkE : pk.isEmpty = false :=
    Bool.eq_false_iff.mpr fun hh => hpkne ((String.isEmpty_iff pk).mp hh)
  cases relay with
  | none =>
    cases petname with
    | none =>
      simp [followTag, truthyOpt, decodeFollowTag, orUndefined, hpkE]
    | some p =>
      exact absurd (hpn (by simp)).2 (by simp [truthyOpt])
  | some r =>
    have hrv : isValidRelayUrl r = true := by simpa using hr (by simp)
    have hrne : r ≠ "" := isValidRelayUrl_ne_empty hrv
    have hrE : r.isEmpty = false :=
      Bool.eq_false_iff.mpr fun hh => hrne ((String.isEmpty_iff r).mp hh)
    cases petname with
    | none =>
      simp [followTag, truthyOpt, hrE, decodeFollowTag, orUndefined, hpkE]
    | some p =>
      have hpt := (hpn (by simp)).1
      simp only [truthyOpt, Bool.not_eq_true'] at hpt
      simp [followTag, truthyOpt, hrE, hpt, decodeFollowTag, orUndefined,
        hpkE]

/-- Decoding the tags of a list of gate-passing,
petname-only-with-relay entries reproduces the list. -/
theorem decodeFollowTags_map_followTag (entries : List FollowEntry) :
    (∀ e ∈ entries, isValidPubkey e.pubkey = true ∧
      (e.relay ≠ none → isValidRelayUrl (e.relay.getD "") = true) ∧
      (e.petname ≠ none →
        truthyOpt e.petname = true ∧ truthyOpt e.relay = true)) →
    decodeFollowTags (entries.map followTag) = entries := by
  induction entries with
  | nil => intro _; rfl
  | cons e rest ih =>
    intro h
    obtain ⟨hp, hr, hpn⟩ := h e (List.mem_cons_self e rest)
    have hrest := ih fun x hx => h x (List.mem_cons_of_mem e hx)
    simp [decodeFollowTags, List.filterMap_cons,
      decodeFollowTag_followTag hp hr hpn, hrest] at hrest ⊢
    exact hrest

/-- **C4 (counterexample).** The round-trip fails on an entry with a
petname but no relay: the petname is encoded at the tag position the
decoder reads as the relay, so `{pubkey, petname: "alice"}` decodes back
as `{pubkey, relay: "alice"}`. -/
theorem followList_roundtrip_counterexample :
    isValidPubkey (⟨List.replicate 64 'a'⟩ : String) = true ∧
    ({ pubkey := ⟨List.replicate 64 'a'⟩, petname := some "alice" } :
        FollowEntry).relay = none ∧
    buildFollowTags
        [{ pubkey := ⟨List.replicate 64 'a'⟩, petname := some "alice" }]
      = .ok [["p", ⟨List.replicate 64 'a'⟩, "alice"]] ∧
    decodeFollowTags [["p", ⟨List.replicate 64 'a'⟩, "alice"]]
      = [{ pubkey := ⟨List.replicate 64 'a'⟩, relay := some "alice" }] ∧
    ([{ pubkey := ⟨List.replicate 64 'a'⟩, relay := some "alice" }] :
        List FollowEntry)
      ≠ [{ pubkey := ⟨List.replicate 64 'a'⟩, petname := some "alice" }] := by
  decide

/-- **C4 (amended).** For every list of entries whose pubkeys pass
`isValidPubkey`, whose present relays pass `isValidRelayUrl`, and in
which every present petname is nonempty and accompanied by a present
nonempty relay, encoding into `p` tags as `publishFollowList` does and
decoding as `fetchFollowList` does reproduces the same entries, with the
same fields, in the same order. -/
theorem followList_encode_decode_roundtrip (entries : List FollowEntry)
    (h : ∀ e ∈ entries, isValidPubkey e.pubkey = true ∧
      (e.relay ≠ none → isValidRelayUrl (e.relay.getD "") = true) ∧
      (e.petname ≠ none →
        truthyOpt e.petname = true ∧ truthyOpt e.relay = true)) :
    buildFollowTags entries = .ok (entries.map followTag) ∧
    decodeFollowTags (entries.map followTag) = entries := by
  constructor
  · apply buildFollowTags_ok_of_good
    intro e he
    obtain ⟨hp, hr, _⟩ := h e he
    unfold badFollowEntry
    rw [hp]
    simp only [Bool.not_true, Bool.false_or]
    cases hrel : e.relay with
    | none => simp [truthyOpt]
    | some r =>
      have hv := hr (by simp [hrel])
      rw [hrel] at hv
      simp only [Option.getD_some] at hv
      simp [hv]
  · exact decodeFollowTags_map_followTag entries h

/-- Witness for **C4 (amended)** at the spec's own example:
`[{pubkey: P1}, {pubkey: P2, relay: "wss://r"}]`. -/
theorem followList_encode_decode_roundtrip_witness :
    buildFollowTags
        [{ pubkey := ⟨List.replicate 64 'a'⟩ },
          { pubkey := ⟨List.replicate 64 'b'⟩, relay := some "wss://r" }]
      = .ok ([{ pubkey := ⟨List.replicate 64 'a'⟩ },
          { pubkey := ⟨List.replicate 64 'b'⟩,
            relay := some "wss://r" }].map followTag) ∧
    decodeFollowTags
        ([({ pubkey := ⟨List.replicate 64 'a'⟩ } : FollowEntry),
          { pubkey := ⟨List.replicate 64 'b'⟩,
            relay := some "wss://r" }].map followTag)
      = [{ pubkey := ⟨List.replicate 64 'a'⟩ },
          { pubkey := ⟨List.replicate 64 'b'⟩, relay := some "wss://r" }] :=
  followList_encode_decode_roundtrip
    [{ pubkey := ⟨List.replicate 64 'a'⟩ },
      { pubkey := ⟨List.replicate 64 'b'⟩, relay := some "wss://r" }]
    (by decide)

/-- When no delivered packet settles the operation and the source never
ends on its own, the deadline timer fires exactly at the deadline. -/
theorem raceSettleTime_never {settles : Packet → Bool} {deadline : Nat}
    {deliveries : List TimedDelivery}
    (h : ∀ d ∈ deliveries, settles d.packet = false) :
    raceSettleTime settles deadline deliveries .never = deadline := by
  induction deliveries with
  | nil => rfl
  | cons d rest ih =>
    have hd := h d (List.mem_cons_self d rest)
    have hrest := ih fun x hx => h x (List.mem_cons_of_mem d hx)
    simp [raceSettleTime, hd, hrest]

/-- With no settling packet delivered, `fetchProfile`'s scan finds
nothing. -/
theorem fetchProfileScan_none {jp : String → Option Json}
    {packets : List Packet}
    (h : ∀ p ∈ packets, fetchProfileSettles jp p = false) :
    fetchProfileScan jp packets = none := by
  induction packets with
  | nil => rfl
  | cons p rest ih =>
    have hrest := ih fun x hx => h x (List.mem_cons_of_mem p hx)
    cases p with
    | none => simpa [fetchProfileScan] using hrest
    | some ev =>
      have hp := h (some ev) (List.mem_cons_self _ _)
      simp only [fetchProfileSettles] at hp
      cases hk : ev.kind == 0 with
      | false => simpa [fetchProfileScan, hk] using hrest
      | true =>
        cases hparse : parseProfileMetadata jp ev.content with
        | some md => rw [hk, hparse] at hp; cases hp
        | none => simpa [fetchProfileScan, hk, hparse] using hrest

/-- With no kind-0 packet delivered, `fetchProfileRoleTag`'s scan finds
nothing. -/
theorem roleTagScan_none {packets : List Packet}
    (h : ∀ p ∈ packets, roleTagSettles p = false) :
    roleTagScan packets = none := by
  induction packets with
  | nil => rfl
  | cons p rest ih =>
    have hrest := ih fun x hx => h x (List.mem_cons_of_mem p hx)
    cases p with
    | none => simpa [roleTagScan] using hrest
    | some ev =>
      have hp := h (some ev) (List.mem_cons_self _ _)
      simp only [roleTagSettles] at hp
      simpa [roleTagScan, hp] using hrest

/-- With no kind-3 packet delivered, `fetchFollowList`'s scan finds
nothing. -/
theorem followListScan_none {packets : List Packet}
    (h : ∀ p ∈ packets, followListSettles p = false) :
    followListScan packets = none := by
  induction packets with
  | nil => rfl
  | cons p rest ih =>
    have hrest := ih fun x hx => h x (List.mem_cons_of_mem p hx)
    cases p with
    | none => simpa [followListScan] using hrest
    | some ev =>
      have hp := h (some ev) (List.mem_cons_self _ _)
      simp only [followListSettles] at hp
      simpa [followListScan, hp] using hrest

/-- A packet that does not contribute leaves the
`fetchMultipleProfiles` map untouched. -/
theorem multiProfilesStep_no_contribution {jp : String → Option Json}
    {m : List (String × ProfileMetadata)} {p : Packet}
    (h : profileContributes jp p = false) :
    multiProfilesStep jp m p = m := by
  cases p with
  | none => rfl
  | some ev =>
    cases ha : ev.kind == 0 <;> cases hb : ev.pubkey.data.isEmpty <;>
      cases hc : parseProfileMetadata jp ev.content <;>
      simp_all [multiProfilesStep, profileContributes]

/-- A packet that does not contribute leaves the `queryProfiles` map
untouched. -/
theorem queryProfilesStep_no_contribution {jp : String → Option Json}
    {m : List (String × (ProfileMetadata × Nat))} {p : Packet}
    (h : profileContributes jp p = false) :
    queryProfilesStep jp m p = m := by
  cases p with
  | none => rfl
  | some ev =>
    cases ha : ev.kind == 0 <;> cases hb : ev.pubkey.data.isEmpty <;>
      cases hc : parseProfileMetadata jp ev.content <;>
      simp_all [queryProfilesStep, profileContributes]

/-- Folding a step that fixes every accumulator is the identity. -/
theorem foldl_fixed {α β : Type} {f : α → β → α} {l : List β}
    (h : ∀ b ∈ l, ∀ a, f a b = a) : ∀ a, l.foldl f a = a := by
  induction l with
  | nil => intro a; rfl
  | cons b rest ih =>
    intro a
    rw [List.foldl_cons, h b (List.mem_cons_self b rest)]
    exact ih (fun x hx => h x (List.mem_cons_of_mem b hx)) a

/-- **C7.** For every read operation whose underlying query delivers no
item satisfying the operation's settling condition (for the map reads: no
item their handlers retain), never completes, and never errors, the
operation settles with its empty/null value exactly when its fixed
per-operation deadline elapses — not before it, and not unboundedly after
it. -/
theorem read_deadline_exact (jp : String → Option Json)
    (deliveries : List TimedDelivery) (pubkeys : List String)
    (limit : Nat) :
    ((∀ d ∈ deliveries, fetchProfileSettles jp d.packet = false) →
      raceSettleTime (fetchProfileSettles jp) fetchProfileTimeoutMs
          deliveries .never = fetchProfileTimeoutMs ∧
      fetchProfileRun jp true true (deliveries.map TimedDelivery.packet)
          .timeout = .resolved none) ∧
    ((∀ d ∈ deliveries, roleTagSettles d.packet = false) →
      raceSettleTime roleTagSettles fetchProfileRoleTagTimeoutMs
          deliveries .never = fetchProfileRoleTagTimeoutMs ∧
      fetchProfileRoleTagRun true true
          (deliveries.map TimedDelivery.packet) .timeout = .resolved none) ∧
    ((∀ d ∈ deliveries, followListSettles d.packet = false) →
      raceSettleTime followListSettles fetchFollowListTimeoutMs
          deliveries .never = fetchFollowListTimeoutMs ∧
      fetchFollowListRun true true (deliveries.map TimedDelivery.packet)
          .timeout = .resolved []) ∧
    (pubkeys ≠ [] →
      (∀ d ∈ deliveries, profileContributes jp d.packet = false) →
      raceSettleTime neverSettles fetchMultipleProfilesTimeoutMs
          deliveries .never = fetchMultipleProfilesTimeoutMs ∧
      fetchMultipleProfilesRun jp true true pubkeys
          (deliveries.map TimedDelivery.packet) .timeout = .resolved []) ∧
    ((∀ d ∈ deliveries, profileContributes jp d.packet = false) →
      raceSettleTime neverSettles queryProfilesTimeoutMs deliveries .never
          = queryProfilesTimeoutMs ∧
      queryProfilesRun jp true true pubkeys limit
          (deliveries.map TimedDelivery.packet) .timeout = .resolved []) := by
  refine ⟨?_, ?_, ?_, ?_, ?_⟩
  · intro h
    refine ⟨raceSettleTime_never h, ?_⟩
    have hscan : fetchProfileScan jp (deliveries.map TimedDelivery.packet)
        = none := by
      apply fetchProfileScan_none
      intro p hp
      obtain ⟨d, hd, rfl⟩ := List.mem_map.mp hp
      exact h d hd
    simp [fetchProfileRun, hscan]
  · intro h
    refine ⟨raceSettleTime_never h, ?_⟩
    have hscan : roleTagScan (deliveries.map TimedDelivery.packet)
        = none := by
      apply roleTagScan_none
      intro p hp
      obtain ⟨d, hd, rfl⟩ := List.mem_map.mp hp
      exact h d hd
    simp [fetchProfileRoleTagRun, hscan]
  · intro h
    refine ⟨raceSettleTime_never h, ?_⟩
    have hscan : followListScan (deliveries.map TimedDelivery.packet)
        = none := by
      apply followListScan_none
      intro p hp
      obtain ⟨d, hd, rfl⟩ := List.mem_map.mp hp
      exact h d hd
    simp [fetchFollowListRun, hscan]
  · intro hne h
    refine ⟨raceSettleTime_never fun d _ => rfl, ?_⟩
    have hacc : multiProfilesAccum jp (deliveries.map TimedDelivery.packet)
        = [] := by
      apply foldl_fixed
      intro p hp a
      obtain ⟨d, hd, rfl⟩ := List.mem_map.mp hp
      exact multiProfilesStep_no_contribution (h d hd)
    have hpe : pubkeys.isEmpty = false := by
      cases pubkeys with
      | nil => exact absurd rfl hne
      | cons x xs => rfl
    simp [fetchMultipleProfilesRun, hpe, hacc]
  · intro h
    refine ⟨raceSettleTime_never fun d _ => rfl, ?_⟩
    have hacc : queryProfilesAccum jp (deliveries.map TimedDelivery.packet)
        = [] := by
      apply foldl_fixed
      intro p hp a
      obtain ⟨d, hd, rfl⟩ := List.mem_map.mp hp
      exact queryProfilesStep_no_contribution (h d hd)
    simp [queryProfilesRun, hacc]

/-- Witness for **C7**: an empty delivery stream that never ends settles
each read at exactly its deadline constant with its empty value. -/
theorem read_deadline_exact_witness :
    (raceSettleTime (fetchProfileSettles fun _ => none)
        fetchProfileTimeoutMs [] .never = fetchProfileTimeoutMs ∧
      fetchProfileRun (fun _ => none) true true [] .timeout
        = .resolved none) ∧
    (raceSettleTime roleTagSettles fetchProfileRoleTagTimeoutMs [] .never
        = fetchProfileRoleTagTimeoutMs ∧
      fetchProfileRoleTagRun true true [] .timeout = .resolved none) ∧
    (raceSettleTime followListSettles fetchFollowListTimeoutMs [] .never
        = fetchFollowListTimeoutMs ∧
      fetchFollowListRun true true [] .timeout = .resolved []) ∧
    (raceSettleTime neverSettles fetchMultipleProfilesTimeoutMs [] .never
        = fetchMultipleProfilesTimeoutMs ∧
      fetchMultipleProfilesRun (fun _ => none) true true ["a"] [] .timeout
        = .resolved []) ∧
    (raceSettleTime neverSettles queryProfilesTimeoutMs [] .never
        = queryProfilesTimeoutMs ∧
      queryProfilesRun (fun _ => none) true true ["a"] 0 [] .timeout
        = .resolved []) := by
  have h := read_deadline_exact (fun _ => none) [] ["a"] 0
  exact ⟨h.1 (by simp), h.2.1 (by simp), h.2.2.1 (by simp),
    h.2.2.2.1 (by simp) (by simp), h.2.2.2.2 (by simp)⟩

/-- `Map.get` after `Map.set`: the set key reads back the new value,
every other key is untouched. -/
theorem mapGet_mapSet {α : Type} :
    ∀ (m : List (String × α)) (k : String) (v : α) (a : String),
      mapGet (mapSet m k v) a = if k = a then some v else mapGet m a
  | [], k, v, a => by simp [mapSet, mapGet]
  | (k1, v1) :: rest, k, v, a => by
    by_cases h1 : k1 = k
    · subst h1
      by_cases h2 : k1 = a
      · subst h2; simp [mapSet, mapGet]
      · simp [mapSet, mapGet, h2]
    · by_cases h2 : k1 = a
      · subst h2
        have hka : ¬k = k1 := fun he => h1 he.symm
        simp [mapSet, h1, mapGet, hka]
      · simp [mapSet, h1, mapGet, h2, mapGet_mapSet rest k v a]

/-- The latest-wins merge never discards the map entry entirely. -/
theorem latestMerge_ne_none (cur : Option (ProfileMetadata × Nat))
    (cand : ProfileMetadata × Nat) : latestMerge cur cand ≠ none := by
  cases cur with
  | none => simp [latestMerge]
  | some kept =>
    simp only [latestMerge]
    split <;> simp

/-- Projection of one `queryProfiles` step onto a single author: the step
merges the packet's record for that author, if any, by latest-wins. -/
theorem mapGet_queryStep (jp : String → Option Json)
    (m : List (String × (ProfileMetadata × Nat))) (p : Packet)
    (a : String) :
    mapGet (queryProfilesStep jp m p) a =
      match profileRecordOf jp a p with
      | none => mapGet m a
      | some cand => latestMerge (mapGet m a) cand := by
  cases p with
  | none => rfl
  | some ev =>
    cases ha : ev.kind == 0 with
    | false => simp [queryProfilesStep, profileRecordOf, ha]
    | true =>
      cases hb : ev.pubkey.data.isEmpty with
      | true => simp [queryProfilesStep, profileRecordOf, ha, hb]
      | false =>
        cases hc : parseProfileMetadata jp ev.content with
        | none => simp [queryProfilesStep, profileRecordOf, ha, hb, hc]
        | some md =>
          by_cases hpub : ev.pubkey = a
          · subst hpub
            cases hm : mapGet m ev.pubkey with
            | none =>
              simp [queryProfilesStep, profileRecordOf, ha, hb, hc, hm,
                latestMerge, mapGet_mapSet]
            | some existing =>
              by_cases ht : ev.created_at > existing.2
              · simp [queryProfilesStep, profileRecordOf, ha, hb, hc, hm,
                  ht, latestMerge, mapGet_mapSet]
              · simp [queryProfilesStep, profileRecordOf, ha, hb, hc, hm,
                  ht, latestMerge]
          · have hpub2 : (ev.pubkey == a) = false := by
              simp [hpub]
            cases hm : mapGet m ev.pubkey with
            | none =>
              simp [queryProfilesStep, profileRecordOf, ha, hb, hc, hm,
                hpub2, mapGet_mapSet, hpub]
            | some existing =>
              by_cases ht : ev.created_at > existing.2
              · simp [queryProfilesStep, profileRecordOf, ha, hb, hc, hm,
                  ht, hpub2, mapGet_mapSet, hpub]
              · simp [queryProfilesStep, profileRecordOf, ha, hb, hc, hm,
                  ht, hpub2]

/-- Projection of the whole `queryProfiles` accumulation onto a single
author: it is the latest-wins fold of that author's records in delivery
order. -/
theorem queryAccum_bestFrom (jp : String → Option Json) (a : String) :
    ∀ (packets : List Packet) (m),
      mapGet (packets.foldl (queryProfilesStep jp) m) a
        = bestFrom jp a (mapGet m a) packets := by
  intro packets
  induction packets with
  | nil => intro m; rfl
  | cons p rest ih =>
    intro m
    rw [List.foldl_cons, ih, mapGet_queryStep]
    cases hc : profileRecordOf jp a p <;> simp [bestFrom, hc]

/-- If the latest-wins fold keeps nothing, it started from nothing and no
packet carried a record for the author. -/
theorem bestFrom_eq_none {jp : String → Option Json} {a : String} :
    ∀ {packets : List Packet} {cur},
      bestFrom jp a cur packets = none →
      cur = none ∧ ∀ p ∈ packets, profileRecordOf jp a p = none := by
  intro packets
  induction packets with
  | nil =>
    intro cur h
    exact ⟨h, by intro p hp; cases hp⟩
  | cons p rest ih =>
    intro cur h
    cases hc : profileRecordOf jp a p with
    | none =>
      simp only [bestFrom, hc] at h
      obtain ⟨h1, h2⟩ := ih h
      refine ⟨h1, ?_⟩
      intro q hq
      rcases List.mem_cons.mp hq with rfl | hq2
      · exact hc
      · exact h2 q hq2
    | some cand =>
      simp only [bestFrom, hc] at h
      exact absurd (ih h).1 (latestMerge_ne_none cur cand)

/-- If the latest-wins fold keeps a record, that record either was the
start value or occurs among the packets, and its timestamp dominates the
start value and every record seen. -/
theorem bestFrom_eq_some {jp : String → Option Json} {a : String} :
    ∀ {packets : List Packet} {cur md t},
      bestFrom jp a cur packets = some (md, t) →
      (cur = some (md, t) ∨
        ∃ p ∈ packets, profileRecordOf jp a p = some (md, t)) ∧
      (∀ md0 t0, cur = some (md0, t0) → t0 ≤ t) ∧
      (∀ q ∈ packets, ∀ md2 t2,
        profileRecordOf jp a q = some (md2, t2) → t2 ≤ t) := by
  intro packets
  induction packets with
  | nil =>
    intro cur md t h
    refine ⟨Or.inl h, ?_, ?_⟩
    · intro md0 t0 hc
      have h2 : some (md0, t0) = some (md, t) := by rw [← hc]; exact h
      injection h2 with hpair
      injection hpair with hmd ht
      omega
    · intro q hq
      cases hq
  | cons p rest ih =>
    intro cur md t h
    cases hc : profileRecordOf jp a p with
    | none =>
      simp only [bestFrom, hc] at h
      obtain ⟨hA, hB, hC⟩ := ih h
      refine ⟨?_, hB, ?_⟩
      · rcases hA with h1 | ⟨q, hq, hrec⟩
        · exact Or.inl h1
        · exact Or.inr ⟨q, List.mem_cons_of_mem p hq, hrec⟩
      · intro q hq md2 t2 hrec
        rcases List.mem_cons.mp hq with rfl | hq2
        · rw [hc] at hrec; cases hrec
        · exact hC q hq2 md2 t2 hrec
    | some cand =>
      simp only [bestFrom, hc] at h
      obtain ⟨hA, hB, hC⟩ := ih h
      obtain ⟨cmd, ct⟩ := cand
      have hcand_le : ct ≤ t := by
        cases cur with
        | none => exact hB cmd ct rfl
        | some kept =>
          obtain ⟨kmd, kt⟩ := kept
          by_cases hgt : ct > kt
          · exact hB cmd ct (by simp [latestMerge, hgt])
          · have hk := hB kmd kt (by simp [latestMerge, hgt])
            omega
      refine ⟨?_, ?_, ?_⟩
      · rcases hA with h1 | ⟨q, hq, hrec⟩
        · cases cur with
          | none =>
            have hpair : cmd = md ∧ ct = t := by
              simpa [latestMerge] using h1
            exact Or.inr ⟨p, List.mem_cons_self p rest,
              by rw [hc, hpair.1, hpair.2]⟩
          | some kept =>
            obtain ⟨kmd, kt⟩ := kept
            by_cases hgt : ct > kt
            · have hpair : cmd = md ∧ ct = t := by
                simpa [latestMerge, hgt] using h1
              exact Or.inr ⟨p, List.mem_cons_self p rest,
                by rw [hc, hpair.1, hpair.2]⟩
            · have hpair : kmd = md ∧ kt = t := by
                simpa [latestMerge, hgt] using h1
              exact Or.inl (by rw [hpair.1, hpair.2])
        · exact Or.inr ⟨q, List.mem_cons_of_mem p hq, hrec⟩
      · intro md0 t0 hcur
        by_cases hgt : ct > t0
        · have := hB cmd ct (by rw [hcur]; simp [latestMerge, hgt])
          omega
        · exact hB md0 t0 (by rw [hcur]; simp [latestMerge, hgt])
      · intro q hq md2 t2 hrec
        rcases List.mem_cons.mp hq with rfl | hq2
        · rw [hc] at hrec
          cases hrec
          exact hcand_le
        · exact hC q hq2 md2 t2 hrec

/-- Stripping the timestamps preserves per-author lookups. -/
theorem mapGet_map_fst (m : List (String × (ProfileMetadata × Nat)))
    (a : String) :
    mapGet (m.map fun p => (p.1, p.2.1)) a = (mapGet m a).map Prod.fst := by
  induction m with
  | nil => rfl
  | cons h rest ih =>
    obtain ⟨k, v⟩ := h
    by_cases hk : k = a <;> simp [mapGet, hk, ih]

/-- **C3.** For every sequence of delivered records, `queryProfiles`
resolves with a map binding each author to the metadata decoded from that
author's record with the greatest `created_at` among the author's
delivered records whose content decodes; a record with a lower
`created_at` than one already seen for the same author is never
retained, and every author with at least one decodable record is
bound. -/
theorem queryProfiles_latest_wins (jp : String → Option Json)
    (pubkeys : List String) (limit : Nat) (packets : List Packet)
    (ending : SourceEnd) :
    ∃ result, queryProfilesRun jp true true pubkeys limit packets ending
        = .resolved result ∧
      (∀ a md, mapGet result a = some md →
        ∃ p ∈ packets, ∃ t, profileRecordOf jp a p = some (md, t) ∧
          ∀ q ∈ packets, ∀ md2 t2,
            profileRecordOf jp a q = some (md2, t2) → t2 ≤ t) ∧
      (∀ a, (∃ p ∈ packets, profileRecordOf jp a p ≠ none) →
        mapGet result a ≠ none) := by
  refine ⟨(queryProfilesAccum jp packets).map fun p => (p.1, p.2.1),
    ?_, ?_, ?_⟩
  · cases ending <;> rfl
  · intro a md hmd
    rw [mapGet_map_fst] at hmd
    obtain ⟨⟨md2, t⟩, hacc, hfst⟩ := Option.map_eq_some'.mp hmd
    simp only at hfst
    subst hfst
    have hbest : bestFrom jp a none packets = some (md2, t) := by
      have hfold := queryAccum_bestFrom jp a packets []
      rw [queryProfilesAccum] at hacc
      rw [hfold] at hacc
      exact hacc
    obtain ⟨hA, _, hC⟩ := bestFrom_eq_some hbest
    rcases hA with h1 | ⟨p, hp, hrec⟩
    · cases h1
    · exact ⟨p, hp, t, hrec, hC⟩
  · rintro a ⟨p, hp, hrec⟩ hnone
    rw [mapGet_map_fst] at hnone
    have hacc : mapGet (queryProfilesAccum jp packets) a = none :=
      Option.map_eq_none'.mp hnone
    have hbest : bestFrom jp a none packets = none := by
      have hfold := queryAccum_bestFrom jp a packets []
      rw [queryProfilesAccum] at hacc
      rw [hfold] at hacc
      exact hacc
    exact hrec ((bestFrom_eq_none hbest).2 p hp)

/-- Witness for **C3**: two records for author `"A"` with `created_at`
100 and 200 — the 200 record is the one the result map reflects and it
dominates both timestamps. -/
theorem queryProfiles_latest_wins_witness :
    ∃ p ∈ ([some ⟨0, "one", 100, [], "A"⟩,
        some ⟨0, "two", 200, [], "A"⟩] : List Packet), ∃ t,
      profileRecordOf (fun _ => some (Json.obj [("name", Json.str "b")]))
          "A" p = some ({ name := some "b" }, t) ∧
      ∀ q ∈ ([some ⟨0, "one", 100, [], "A"⟩,
          some ⟨0, "two", 200, [], "A"⟩] : List Packet), ∀ md2 t2,
        profileRecordOf (fun _ => some (Json.obj [("name", Json.str "b")]))
            "A" q = some (md2, t2) → t2 ≤ t := by
  obtain ⟨result, hrun, hprop, _⟩ :=
    queryProfiles_latest_wins
      (fun _ => some (Json.obj [("name", Json.str "b")])) [] 100
      [some ⟨0, "one", 100, [], "A"⟩, some ⟨0, "two", 200, [], "A"⟩]
      .complete
  have h2 : queryProfilesRun
      (fun _ => some (Json.obj [("name", Json.str "b")])) true true [] 100
      [some ⟨0, "one", 100, [], "A"⟩, some ⟨0, "two", 200, [], "A"⟩]
      .complete
      = .resolved [("A", { name := some "b" })] := by decide
  rw [hrun] at h2
  injection h2 with hres
  exact hprop "A" { name := some "b" } (by rw [hres]; decide)

end NsAuth
